import Mathlib

/-!
Verification of the auto-torrent streaming/download engine.

This file gives a shallow embedding, in Lean 4, of the piece-scheduling,
media-file-selection, range-serving, progress-state and cleanup logic of
the repository (src/auto_torrent/stream.py, download.py, torrent.py,
cli.py), and proves or refutes the specified properties about it.
Machine integers of the source are modelled as `Nat` (the Python code uses
arbitrary-precision integers, so no wrap-around modelling is needed);
fallible code returns `Except`/`Option`.
-/

namespace AutoTorrent

/-- Embeds `_file_piece_range` (stream.py, lines 121-133):
`first_piece = file_offset // piece_length`,
`last_piece = (file_offset + file_size - 1) // piece_length`.
Python `//` on nonnegative integers is `Nat` division. -/
def filePieceRange (fileOffset fileSize pieceLength : Nat) : Nat × Nat :=
  (fileOffset / pieceLength, (fileOffset + fileSize - 1) / pieceLength)

/-- Embeds the in-place assignment loop `for i in range(a, b): xs[i] = v`
over a Python list, carrying the index of the head element. -/
def setRangeAux (v a b : Nat) : Nat → List Nat → List Nat
  | _, [] => []
  | j, x :: xs => (if a ≤ j ∧ j < b then v else x) :: setRangeAux v a b (j + 1) xs

/-- The loop `for i in range(a, b): xs[i] = v`, starting from index 0. -/
def setRange (xs : List Nat) (a b v : Nat) : List Nat :=
  setRangeAux v a b 0 xs

/-- Embeds `_prioritize_for_streaming` (stream.py, lines 136-154):
start from `[1] * num_pieces`, set priority 7 on
`range(first_piece, min(first_piece + buffer_pieces, last_piece + 1))`,
then on `range(max(last_piece - 4, first_piece), last_piece + 1)`.
Python `max(last_piece - 4, first_piece)` equals
`max (lastPiece - 4) firstPiece` on `Nat`: when `last_piece < 4` the
Python value `last_piece - 4` is negative and the max is `first_piece`,
and `Nat` subtraction truncates to 0 ≤ `firstPiece`. -/
def prioritizeForStreaming (numPieces firstPiece lastPiece bufferPieces : Nat) :
    List Nat :=
  let priorities := List.replicate numPieces 1
  let priorities := setRange priorities firstPiece
    (min (firstPiece + bufferPieces) (lastPiece + 1)) 7
  let tailStart := max (lastPiece - 4) firstPiece
  setRange priorities tailStart (lastPiece + 1) 7

theorem setRangeAux_length (v a b j : Nat) (xs : List Nat) :
    (setRangeAux v a b j xs).length = xs.length := by
  induction xs generalizing j with
  | nil => rfl
  | cons x xs ih => simp [setRangeAux, ih]

theorem setRange_length (xs : List Nat) (a b v : Nat) :
    (setRange xs a b v).length = xs.length := setRangeAux_length ..

theorem setRangeAux_getD (v a b j i : Nat) (xs : List Nat) :
    (setRangeAux v a b j xs).getD i 0 =
      if a ≤ j + i ∧ j + i < b then
        (if i < xs.length then v else 0)
      else xs.getD i 0 := by
  induction xs generalizing j i with
  | nil => simp [setRangeAux]
  | cons x xs ih =>
    cases i with
    | zero => simp [setRangeAux]
    | succ i =>
      simp only [setRangeAux, List.getD_cons_succ, List.length_cons]
      rw [ih (j + 1) i]
      have h1 : j + 1 + i = j + (i + 1) := by omega
      rw [h1]
      by_cases hc : a ≤ j + (i + 1) ∧ j + (i + 1) < b
      · simp only [if_pos hc]
        by_cases hl : i < xs.length
        · rw [if_pos hl, if_pos (by omega)]
        · rw [if_neg hl, if_neg (by omega)]
      · simp only [if_neg hc]

theorem setRange_getD (xs : List Nat) (a b v i : Nat) (hi : i < xs.length) :
    (setRange xs a b v).getD i 0 =
      if a ≤ i ∧ i < b then v else xs.getD i 0 := by
  unfold setRange
  rw [setRangeAux_getD]
  simp only [Nat.zero_add, if_pos hi]

theorem prioritizeForStreaming_length (n f l b : Nat) :
    (prioritizeForStreaming n f l b).length = n := by
  unfold prioritizeForStreaming
  simp [setRange_length, List.length_replicate]

theorem replicate_getD (n v i : Nat) (hi : i < n) :
    (List.replicate n v).getD i 0 = v := by
  rw [List.getD_eq_getElem _ _ (by simpa using hi)]
  simp

/-- Value of the streaming priority map at any in-bounds index: 7 inside
the head-buffer window or the tail window, 1 elsewhere. -/
theorem prioritizeForStreaming_getD (n f l b i : Nat) (hi : i < n) :
    (prioritizeForStreaming n f l b).getD i 0 =
      if (f ≤ i ∧ i < min (f + b) (l + 1)) ∨ (max (l - 4) f ≤ i ∧ i < l + 1)
      then 7 else 1 := by
  unfold prioritizeForStreaming
  have h1 : i < (setRange (List.replicate n 1) f (min (f + b) (l + 1)) 7).length := by
    rw [setRange_length, List.length_replicate]; exact hi
  rw [setRange_getD _ _ _ _ _ h1, setRange_getD _ _ _ _ _ (by simpa using hi),
    replicate_getD n 1 i hi]
  split_ifs <;> first | rfl | tauto

theorem lt_div_succ_mul (a p : Nat) (hp : 0 < p) : a < (a / p + 1) * p := by
  have h := Nat.div_add_mod a p
  have h2 : a % p < p := Nat.mod_lt a hp
  calc a = p * (a / p) + a % p := h.symm
    _ < p * (a / p) + p := by omega
    _ = (a / p + 1) * p := by ring

/-- Claim C3: for every file with `byte_offset ≥ 0`, `byte_length ≥ 1` and
`piece_length ≥ 1`, the computed piece range `(first_piece, last_piece)`
satisfies `first_piece * piece_length ≤ byte_offset`,
`byte_offset < (first_piece + 1) * piece_length`,
`(last_piece + 1) * piece_length > byte_offset + byte_length - 1`,
and `first_piece ≤ last_piece`. -/
theorem c3_file_piece_range_bounds (off size plen : Nat)
    (hp : 1 ≤ plen) (hs : 1 ≤ size) :
    (filePieceRange off size plen).1 * plen ≤ off ∧
    off < ((filePieceRange off size plen).1 + 1) * plen ∧
    ((filePieceRange off size plen).2 + 1) * plen > off + size - 1 ∧
    (filePieceRange off size plen).1 ≤ (filePieceRange off size plen).2 := by
  refine ⟨Nat.div_mul_le_self off plen, lt_div_succ_mul off plen hp,
    lt_div_succ_mul (off + size - 1) plen hp, ?_⟩
  exact Nat.div_le_div_right (by omega)

/-- Witness for C3 at the concrete input `(1000000, 5000000, 262144)`. -/
theorem c3_file_piece_range_bounds_witness :
    1 ≤ 262144 ∧ 1 ≤ 5000000 ∧
    ((filePieceRange 1000000 5000000 262144).1 * 262144 ≤ 1000000 ∧
     1000000 < ((filePieceRange 1000000 5000000 262144).1 + 1) * 262144 ∧
     ((filePieceRange 1000000 5000000 262144).2 + 1) * 262144 >
       1000000 + 5000000 - 1 ∧
     (filePieceRange 1000000 5000000 262144).1 ≤
       (filePieceRange 1000000 5000000 262144).2) :=
  ⟨by decide, by decide,
    c3_file_piece_range_bounds 1000000 5000000 262144 (by decide) (by decide)⟩

/-- Claim C2: for every priority map produced by the stream scheduler on the
range `[f, l]` with buffer count `b` (piece count `n`, `f ≤ l < n`):
the map length equals `n`; every piece in
`[f, min (f + b) (l + 1))` and each of the final five pieces of the range
(`[max (l - 4) f, l]`) gets top priority 7; every other piece inside the
range gets normal priority 1; and whenever `l - f < b + 5` the whole
range collapses to top priority. -/
theorem c2_streaming_priorities (n f l b : Nat) (hfl : f ≤ l) (hl : l < n) :
    (prioritizeForStreaming n f l b).length = n ∧
    (∀ i, f ≤ i → i < min (f + b) (l + 1) →
      (prioritizeForStreaming n f l b).getD i 0 = 7) ∧
    (∀ i, max (l - 4) f ≤ i → i ≤ l →
      (prioritizeForStreaming n f l b).getD i 0 = 7) ∧
    (∀ i, f ≤ i → i ≤ l → min (f + b) (l + 1) ≤ i → i < max (l - 4) f →
      (prioritizeForStreaming n f l b).getD i 0 = 1) ∧
    (l - f < b + 5 → ∀ i, f ≤ i → i ≤ l →
      (prioritizeForStreaming n f l b).getD i 0 = 7) := by
  refine ⟨prioritizeForStreaming_length n f l b, ?_, ?_, ?_, ?_⟩
  · intro i h1 h2
    rw [prioritizeForStreaming_getD n f l b i (by omega)]
    rw [if_pos (Or.inl ⟨h1, h2⟩)]
  · intro i h1 h2
    rw [prioritizeForStreaming_getD n f l b i (by omega)]
    rw [if_pos (Or.inr ⟨h1, by omega⟩)]
  · intro i h1 h2 h3 h4
    rw [prioritizeForStreaming_getD n f l b i (by omega)]
    rw [if_neg (by omega)]
  · intro hcol i h1 h2
    rw [prioritizeForStreaming_getD n f l b i (by omega)]
    rw [if_pos (by omega)]

/-- Witness for C2 at the spec's concrete inputs: buffer 10 on the
100-piece range `[0, 99]` (pieces 0-9 and 95-99 top, piece 50 normal),
and buffer 20 on the 10-piece range `[0, 9]` (all pieces top). -/
theorem c2_streaming_priorities_witness :
    ((0 : Nat) ≤ 99 ∧ 99 < 100 ∧
      (prioritizeForStreaming 100 0 99 10).getD 9 0 = 7 ∧
      (prioritizeForStreaming 100 0 99 10).getD 95 0 = 7 ∧
      (prioritizeForStreaming 100 0 99 10).getD 50 0 = 1) ∧
    ((0 : Nat) ≤ 9 ∧ 9 < 10 ∧
      ∀ i, 0 ≤ i → i ≤ 9 → (prioritizeForStreaming 10 0 9 20).getD i 0 = 7) := by
  refine ⟨⟨by decide, by decide, ?_, ?_, ?_⟩, ⟨by decide, by decide, ?_⟩⟩
  · exact (c2_streaming_priorities 100 0 99 10 (by decide) (by decide)).2.1 9
      (by decide) (by decide)
  · exact (c2_streaming_priorities 100 0 99 10 (by decide) (by decide)).2.2.1 95
      (by decide) (by decide)
  · exact (c2_streaming_priorities 100 0 99 10 (by decide) (by decide)).2.2.2.1 50
      (by decide) (by decide) (by decide) (by decide)
  · exact (c2_streaming_priorities 10 0 9 20 (by decide) (by decide)).2.2.2.2
      (by decide)

/-- Counterexample to claim C4: on a 5-piece torrent whose selected file spans the
piece range `[1, 2]`, piece 4 lies outside the file's range, yet the
streaming priority map assigns it priority 1 (normal), not 0 (skip): the
map is initialised as `[1] * num_pieces` and out-of-range entries are
never lowered. -/
theorem c4_out_of_range_cex :
    (prioritizeForStreaming 5 1 2 1).getD 4 0 = 1 ∧
    ¬((prioritizeForStreaming 5 1 2 1).getD 4 0 = 0) := by
  constructor <;> decide

/-- Claim C4 as amended: every piece outside the selected file's piece range
`[f, l]` receives priority 1 (normal), not 0. -/
theorem c4_out_of_range_priority (n f l b i : Nat) (hi : i < n)
    (hout : i < f ∨ l < i) :
    (prioritizeForStreaming n f l b).getD i 0 = 1 := by
  rw [prioritizeForStreaming_getD n f l b i hi]
  rw [if_neg (by omega)]

/-- Witness for C4's amended claim at the counterexample's input. -/
theorem c4_out_of_range_priority_witness :
    4 < 5 ∧ ((4 : Nat) < 1 ∨ 2 < 4) ∧
    (prioritizeForStreaming 5 1 2 1).getD 4 0 = 1 :=
  ⟨by decide, Or.inr (by decide),
    c4_out_of_range_priority 5 1 2 1 4 (by decide) (Or.inr (by decide))⟩

/-- Lowercases one ASCII character, embedding Python `str.lower()` as
applied to file-name suffixes (the curated extension set is pure ASCII). -/
def asciiLower (c : Char) : Char :=
  if 'A' ≤ c ∧ c ≤ 'Z' then Char.ofNat (c.toNat + 32) else c

/-- The final path component (characters after the last slash), embedding
`pathlib.PurePath(path).name` for the slash-separated relative paths that
libtorrent reports for files inside a torrent. -/
def lastComponent (cs : List Char) : List Char :=
  cs.foldl (fun acc c => if c = '/' then [] else acc ++ [c]) []

/-- Index of the last dot of a name, embedding `str.rfind` of a single
dot character (`none` when absent, where Python returns -1). -/
def rfindDot (cs : List Char) : Option Nat :=
  (cs.foldl (fun (acc : Nat × Option Nat) c =>
    (acc.1 + 1, if c = '.' then some acc.1 else acc.2)) (0, none)).2

/-- Embeds `pathlib.PurePath.suffix`: with `i` the index of the last dot
of the final component, the suffix is `name[i:]` when `0 < i < len(name) - 1`
and empty otherwise. -/
def pySuffix (name : List Char) : List Char :=
  match rfindDot name with
  | none => []
  | some i => if 0 < i ∧ i < name.length - 1 then name.drop i else []

/-- Embeds the `MEDIA_EXTENSIONS` constant of stream.py (lines 20-23). -/
def MEDIA_EXTENSIONS : List String :=
  [".mkv", ".mp4", ".avi", ".mov", ".wmv", ".flv", ".webm",
   ".m4v", ".mpg", ".mpeg", ".ts", ".m2ts", ".vob"]

/-- Embeds `Path(path).suffix.lower()` from `_select_media_file`. -/
def extOf (path : String) : List Char :=
  (pySuffix (lastComponent path.toList)).map asciiLower

/-- Embeds the membership test `ext in MEDIA_EXTENSIONS`. -/
def isMediaPath (path : String) : Bool :=
  MEDIA_EXTENSIONS.any fun e => decide (e.toList = extOf path)

/-- The `best_size` held by the selection accumulator: `none` stands for
the initial `best_idx = -1, best_size = 0, best_name = ""` state of
`_select_media_file`, so its size reads as 0. -/
def accSize : Option (Nat × String × Nat) → Nat
  | none => 0
  | some b => b.2.2

/-- Embeds the selection loop of `_select_media_file` (stream.py, lines
94-105): a file at index `i` replaces the accumulator exactly when its
lowercased suffix is a media extension and its size strictly exceeds the
current `best_size`; the stored name is `Path(path).name`. -/
def selectBest : List (String × Nat) → Nat → Option (Nat × String × Nat) →
    Option (Nat × String × Nat)
  | [], _, best => best
  | (path, size) :: rest, i, best =>
      if isMediaPath path ∧ accSize best < size then
        selectBest rest (i + 1) (some (i, (lastComponent path.toList).asString, size))
      else
        selectBest rest (i + 1) best

/-- Embeds `_select_media_file` (stream.py, lines 89-117): run the
selection loop over the `(file_path, file_size)` list; when no candidate
was found (`best_idx < 0`) fail with the message listing all file paths,
otherwise return `(best_idx, best_name, best_size)`. -/
def selectMediaFile (files : List (String × Nat)) :
    Except String (Nat × String × Nat) :=
  match selectBest files 0 none with
  | some r => .ok r
  | none => .error ("No media files found in torrent. Files: " ++
      String.intercalate ", " (files.map fun f => f.1))

/-- Embeds the file-priority side effect of `_select_media_file` (lines
113-115): `[0] * num_files` with the selected index raised to 4. -/
def selectFilePriorities (numFiles bestIdx : Nat) : List Nat :=
  setRange (List.replicate numFiles 0) bestIdx (bestIdx + 1) 4

theorem selectBest_cons (path : String) (size : Nat) (rest : List (String × Nat))
    (i : Nat) (best : Option (Nat × String × Nat)) :
    selectBest ((path, size) :: rest) i best =
      if isMediaPath path ∧ accSize best < size then
        selectBest rest (i + 1) (some (i, (lastComponent path.toList).asString, size))
      else
        selectBest rest (i + 1) best := rfl

theorem accSize_mono (files : List (String × Nat)) (i : Nat)
    (best : Option (Nat × String × Nat)) :
    accSize best ≤ accSize (selectBest files i best) := by
  induction files generalizing i best with
  | nil => exact Nat.le_refl _
  | cons fp rest ih =>
    obtain ⟨path, size⟩ := fp
    rw [selectBest_cons]
    by_cases hc : isMediaPath path ∧ accSize best < size
    · rw [if_pos hc]
      refine Nat.le_trans (Nat.le_of_lt hc.2) ?_
      exact ih (i + 1) (some (i, (lastComponent path.toList).asString, size))
    · rw [if_neg hc]
      exact ih (i + 1) best

theorem selectBest_upper (files : List (String × Nat)) (i : Nat)
    (best : Option (Nat × String × Nat)) (j : Nat) (hj : j < files.length)
    (hm : isMediaPath (files.get ⟨j, hj⟩).1 = true) :
    (files.get ⟨j, hj⟩).2 ≤ accSize (selectBest files i best) := by
  induction files generalizing i best j with
  | nil => exact absurd hj (by simp)
  | cons fp rest ih =>
    obtain ⟨path, size⟩ := fp
    rw [selectBest_cons]
    by_cases hc : isMediaPath path ∧ accSize best < size
    · rw [if_pos hc]
      cases j with
      | zero =>
        show size ≤ _
        exact accSize_mono rest (i + 1)
          (some (i, (lastComponent path.toList).asString, size))
      | succ j => exact ih (i + 1) _ j (by simpa using hj) hm
    · rw [if_neg hc]
      cases j with
      | zero =>
        show size ≤ _
        have hle : size ≤ accSize best := by
          rcases Nat.lt_or_ge (accSize best) size with hlt | hge
          · exact absurd ⟨hm, hlt⟩ hc
          · exact hge
        exact Nat.le_trans hle (accSize_mono rest (i + 1) best)
      | succ j => exact ih (i + 1) best j (by simpa using hj) hm

theorem selectBest_result (files : List (String × Nat)) (i : Nat)
    (best : Option (Nat × String × Nat)) :
    selectBest files i best = best ∨
    ∃ j, ∃ hj : j < files.length,
      isMediaPath (files.get ⟨j, hj⟩).1 = true ∧
      accSize best < (files.get ⟨j, hj⟩).2 ∧
      selectBest files i best = some (i + j,
        (lastComponent (files.get ⟨j, hj⟩).1.toList).asString,
        (files.get ⟨j, hj⟩).2) ∧
      (∀ k, ∀ hk : k < files.length, k < j →
        isMediaPath (files.get ⟨k, hk⟩).1 = true →
        (files.get ⟨k, hk⟩).2 < (files.get ⟨j, hj⟩).2) := by
  induction files generalizing i best with
  | nil => exact Or.inl rfl
  | cons fp rest ih =>
    obtain ⟨path, size⟩ := fp
    rw [selectBest_cons]
    by_cases hc : isMediaPath path ∧ accSize best < size
    · rw [if_pos hc]
      rcases ih (i + 1) (some (i, (lastComponent path.toList).asString, size)) with
        heq | ⟨j, hj, hm, hgt, heq, hprev⟩
      · refine Or.inr ⟨0, by simp, hc.1, hc.2, by simpa using heq, ?_⟩
        intro k hk hk0 _
        exact absurd hk0 (Nat.not_lt_zero k)
      · have hgt2 : size < (rest.get ⟨j, hj⟩).2 := hgt
        refine Or.inr ⟨j + 1, by simpa using hj, hm, Nat.lt_trans hc.2 hgt2, ?_, ?_⟩
        · rw [heq]
          congr 2
          omega
        · intro k hk hklt hkm
          cases k with
          | zero => exact hgt2
          | succ k => exact hprev k (by simpa using hk) (by omega) hkm
    · rw [if_neg hc]
      rcases ih (i + 1) best with heq | ⟨j, hj, hm, hgt, heq, hprev⟩
      · exact Or.inl heq
      · refine Or.inr ⟨j + 1, by simpa using hj, hm, hgt, ?_, ?_⟩
        · rw [heq]
          congr 2
          omega
        · intro k hk hklt hkm
          cases k with
          | zero =>
            have hle : size ≤ accSize best := by
              rcases Nat.lt_or_ge (accSize best) size with hlt | hge
              · exact absurd ⟨hkm, hlt⟩ hc
              · exact hge
            exact Nat.lt_of_le_of_lt hle hgt
          | succ k => exact hprev k (by simpa using hk) (by omega) hkm

/-- Counterexample to claim C5: a torrent whose only file is a 0-byte
`movie.mkv` has a file with a recognized media extension, so the claim
demands that selection return it; but the loop's comparison
`size > best_size` is strict against the initial `best_size = 0`, so the
0-byte media file is never taken and selection fails with the no-media
error instead. -/
theorem c5_zero_size_media_cex :
    isMediaPath "movie.mkv" = true ∧
    selectMediaFile [("movie.mkv", 0)] =
      Except.error "No media files found in torrent. Files: movie.mkv" := by
  exact ⟨rfl, rfl⟩

/-- Claim C5 as amended: stream-mode media selection returns the file
whose extension is in the curated media set and whose size is largest
among media files of size at least one byte, ties broken by the earlier
index; it fails with the no-media-file error listing all file names
exactly when no media-extension file of nonzero size exists (in
particular also when media files exist but all have size 0). -/
theorem c5_media_selection (files : List (String × Nat)) :
    (∀ idx name size, selectMediaFile files = Except.ok (idx, name, size) →
      ∃ hj : idx < files.length,
        isMediaPath (files.get ⟨idx, hj⟩).1 = true ∧
        size = (files.get ⟨idx, hj⟩).2 ∧
        1 ≤ size ∧
        name = (lastComponent (files.get ⟨idx, hj⟩).1.toList).asString ∧
        (∀ k, ∀ hk : k < files.length, isMediaPath (files.get ⟨k, hk⟩).1 = true →
          (files.get ⟨k, hk⟩).2 ≤ size) ∧
        (∀ k, ∀ hk : k < files.length, k < idx →
          isMediaPath (files.get ⟨k, hk⟩).1 = true →
          (files.get ⟨k, hk⟩).2 < size)) ∧
    (selectMediaFile files = Except.error ("No media files found in torrent. Files: " ++
        String.intercalate ", " (files.map fun f => f.1)) ↔
      (∀ k, ∀ hk : k < files.length, isMediaPath (files.get ⟨k, hk⟩).1 = true →
        (files.get ⟨k, hk⟩).2 = 0)) := by
  constructor
  · intro idx name size hok
    cases hsb : selectBest files 0 none with
    | none =>
      rw [selectMediaFile, hsb] at hok
      exact absurd hok (by simp)
    | some r =>
      rw [selectMediaFile, hsb] at hok
      have hr : r = (idx, name, size) := by
        cases hok
        rfl
      subst hr
      rcases selectBest_result files 0 none with heq | ⟨j, hj, hm, hgt, heq, hprev⟩
      · rw [heq] at hsb
        exact absurd hsb (by simp)
      · rw [heq] at hsb
        have hidx : idx = j := by
          have := congrArg (fun o => (Option.getD o (0, "", 0)).1) hsb
          simpa using this.symm
        subst hidx
        have hname : name = (lastComponent (files.get ⟨idx, hj⟩).1.toList).asString := by
          have := congrArg (fun o => (Option.getD o (0, "", 0)).2.1) hsb
          simpa using this.symm
        have hsize : size = (files.get ⟨idx, hj⟩).2 := by
          have := congrArg (fun o => (Option.getD o (0, "", 0)).2.2) hsb
          simpa using this.symm
        refine ⟨hj, hm, hsize, by omega, hname, ?_, ?_⟩
        · intro k hk hkm
          have hup := selectBest_upper files 0 none k hk hkm
          rw [heq] at hup
          exact le_of_le_of_eq hup hsize.symm
        · intro k hk hklt hkm
          have := hprev k hk hklt hkm
          omega
  · constructor
    · intro herr k hk hkm
      cases hsb : selectBest files 0 none with
      | none =>
        have hup := selectBest_upper files 0 none k hk hkm
        rw [hsb] at hup
        exact Nat.le_zero.mp hup
      | some r =>
        rw [selectMediaFile, hsb] at herr
        exact absurd herr (by simp)
    · intro hall
      cases hsb : selectBest files 0 none with
      | none => rw [selectMediaFile, hsb]
      | some r =>
        rcases selectBest_result files 0 none with heq | ⟨j, hj, hm, hgt, heq, hprev⟩
        · rw [heq] at hsb
          exact absurd hsb (by simp)
        · have := hall j hj hm
          rw [this] at hgt
          exact absurd hgt (by simp [accSize])

/-- Witness for C5's amended claim at the spec's concrete example
`[movie.mkv: 2GB, sample.mp4: 50MB, readme.txt: 1KB]`, whose selection
result is `(0, movie.mkv, 2000000000)`. -/
theorem c5_media_selection_witness :
    ∃ hj : 0 < ([("movie.mkv", 2000000000), ("sample.mp4", 50000000),
        ("readme.txt", 1000)] : List (String × Nat)).length,
      isMediaPath (([("movie.mkv", 2000000000), ("sample.mp4", 50000000),
          ("readme.txt", 1000)] : List (String × Nat)).get ⟨0, hj⟩).1 = true ∧
      2000000000 = (([("movie.mkv", 2000000000), ("sample.mp4", 50000000),
          ("readme.txt", 1000)] : List (String × Nat)).get ⟨0, hj⟩).2 ∧
      1 ≤ 2000000000 ∧
      "movie.mkv" = (lastComponent (([("movie.mkv", 2000000000),
          ("sample.mp4", 50000000), ("readme.txt", 1000)] :
          List (String × Nat)).get ⟨0, hj⟩).1.toList).asString ∧
      (∀ k, ∀ hk : k < ([("movie.mkv", 2000000000), ("sample.mp4", 50000000),
          ("readme.txt", 1000)] : List (String × Nat)).length,
        isMediaPath (([("movie.mkv", 2000000000), ("sample.mp4", 50000000),
            ("readme.txt", 1000)] : List (String × Nat)).get ⟨k, hk⟩).1 = true →
        (([("movie.mkv", 2000000000), ("sample.mp4", 50000000),
            ("readme.txt", 1000)] : List (String × Nat)).get ⟨k, hk⟩).2 ≤ 2000000000) ∧
      (∀ k, ∀ hk : k < ([("movie.mkv", 2000000000), ("sample.mp4", 50000000),
          ("readme.txt", 1000)] : List (String × Nat)).length, k < 0 →
        isMediaPath (([("movie.mkv", 2000000000), ("sample.mp4", 50000000),
            ("readme.txt", 1000)] : List (String × Nat)).get ⟨k, hk⟩).1 = true →
        (([("movie.mkv", 2000000000), ("sample.mp4", 50000000),
            ("readme.txt", 1000)] : List (String × Nat)).get ⟨k, hk⟩).2 < 2000000000) :=
  (c5_media_selection [("movie.mkv", 2000000000), ("sample.mp4", 50000000),
    ("readme.txt", 1000)]).1 0 "movie.mkv" 2000000000 rfl

/-- Number of availability polls inside `_wait_for_pieces` (stream.py,
lines 182-194): the loop runs while `time.monotonic() < deadline` with
`deadline` 30 seconds ahead and sleeps 0.2 s per iteration, hence 150
polls within the window. -/
def WAIT_POLLS : Nat := 150

/-- Embeds `_wait_for_pieces` (stream.py, lines 175-194), abstracting the
engine state as `avail tick piece` (the value of `handle.status().pieces`
read at each poll tick): the wait succeeds iff at some poll tick every
piece of `range(needed_first, needed_last + 1)` is locally available,
where `needed_first = (file_offset + start_byte) // piece_length` and
`needed_last = (file_offset + end_byte) // piece_length`. -/
def waitForPieces (avail : Nat → Nat → Bool)
    (fileOffset pieceLength startByte endByte : Nat) : Bool :=
  let neededFirst := (fileOffset + startByte) / pieceLength
  let neededLast := (fileOffset + endByte) / pieceLength
  (List.range WAIT_POLLS).any fun t =>
    (List.range' neededFirst (neededLast + 1 - neededFirst)).all fun p => avail t p

/-- Embeds the priority bumps `_wait_for_pieces` performs before polling:
`for p in range(needed_first, min(needed_last + 20, last_piece + 1)):
handle.piece_priority(p, 7)`. -/
def waitForPiecesBumps (fileOffset pieceLength startByte endByte lastPiece : Nat) :
    List Nat :=
  let neededFirst := (fileOffset + startByte) / pieceLength
  let neededLast := (fileOffset + endByte) / pieceLength
  List.range' neededFirst (min (neededLast + 20) (lastPiece + 1) - neededFirst)

/-- Chunk size of the streaming read loop: `chunk = 64 * 1024`. -/
def CHUNK : Nat := 64 * 1024

/-- Embeds the chunked read loop of `_serve_file` (stream.py, lines
237-247) with explicit fuel: each iteration reads
`min(chunk, remaining)` bytes at the current position and stops when
`remaining` reaches 0 or a read returns no data. Reading from a list of
bytes, `f.read(k)` at position `pos` returns `(drop pos).take k`. -/
def readChunksF (fileData : List Nat) : Nat → Nat → Nat → List Nat
  | 0, _, _ => []
  | fuel + 1, pos, remaining =>
    if remaining = 0 then []
    else
      let data := (fileData.drop pos).take (min CHUNK remaining)
      if data.length = 0 then []
      else data ++ readChunksF fileData fuel (pos + data.length) (remaining - data.length)

/-- The bytes written by the read loop starting at `pos` with `remaining`
bytes to send. Every successful iteration consumes at least one byte, so
`remaining` itself bounds the iteration count and serves as fuel. -/
def readChunks (fileData : List Nat) (pos remaining : Nat) : List Nat :=
  readChunksF fileData remaining pos remaining

/-- Response of the range handler: status code, the `Content-Range`,
`Content-Length` and `Content-Type` header values when sent, and the file
bytes streamed to the client (the HTML page `send_error` attaches to a
503 is not file content, so the 503 response carries no file bytes). -/
structure RangeResponse where
  statusCode : Nat
  contentRange : Option String
  contentLength : Option String
  contentType : Option String
  body : List Nat

/-- Embeds the `Range`-header branch of `_serve_file` (stream.py, lines
196-249) for an already-parsed header `bytes=start-endReq` (the claim's
premise is a well-formed header with both integers present, on which the
`split("-")`/`int` parse succeeds): clamp `end` to `file_size - 1`, wait
for the covering pieces; on timeout reply 503, otherwise reply 206 with
`Content-Range: bytes start-end/file_size` and
`Content-Length: end - start + 1` (computed in `Int` as in Python, where
it may be nonpositive if `start > end`), then stream that many bytes in
64 KB chunks unless the request was a HEAD. -/
def serveFileRange (avail : Nat → Nat → Bool)
    (fileOffset pieceLength fileSize : Nat) (fileData : List Nat)
    (mimeType : String) (start endReq : Nat) (headOnly : Bool) : RangeResponse :=
  let endB := min endReq (fileSize - 1)
  if waitForPieces avail fileOffset pieceLength start endB then
    let length : Int := (endB : Int) - (start : Int) + 1
    ⟨206,
     some ("bytes " ++ Nat.repr start ++ "-" ++ Nat.repr endB ++ "/" ++
       Nat.repr fileSize),
     some (toString length),
     some mimeType,
     if headOnly then [] else readChunks fileData start length.toNat⟩
  else
    ⟨503, none, none, none, []⟩

/-- Piece `p` covers byte `b` of the selected file when the global byte
position `file_offset + b` falls inside piece `p`. -/
def coversByte (fileOffset pieceLength p b : Nat) : Prop :=
  p * pieceLength ≤ fileOffset + b ∧ fileOffset + b < (p + 1) * pieceLength

theorem readChunksF_length (fileData : List Nat) (fuel : Nat) :
    ∀ pos remaining, remaining ≤ fuel → pos + remaining ≤ fileData.length →
      (readChunksF fileData fuel pos remaining).length = remaining := by
  induction fuel with
  | zero =>
    intro pos remaining hf _
    have : remaining = 0 := Nat.le_zero.mp hf
    simp [readChunksF, this]
  | succ fuel ih =>
    intro pos remaining hf hb
    by_cases h0 : remaining = 0
    · simp [readChunksF, h0]
    · have hr1 : 1 ≤ remaining := Nat.one_le_iff_ne_zero.mpr h0
      have hdlen : ((fileData.drop pos).take (min CHUNK remaining)).length =
          min CHUNK remaining := by
        rw [List.length_take, List.length_drop]
        have h1 : min CHUNK remaining ≤ remaining := Nat.min_le_right ..
        omega
      have hd1 : 1 ≤ min CHUNK remaining := by
        have : (1 : Nat) ≤ CHUNK := by decide
        omega
      rw [readChunksF]
      rw [if_neg h0, if_neg (by omega)]
      rw [List.length_append, hdlen, ih (pos + min CHUNK remaining)
        (remaining - min CHUNK remaining) (by omega) (by omega)]
      omega

theorem readChunks_length (fileData : List Nat) (pos remaining : Nat)
    (hb : pos + remaining ≤ fileData.length) :
    (readChunks fileData pos remaining).length = remaining :=
  readChunksF_length fileData remaining pos remaining (Nat.le_refl _) hb

/-- The covering pieces of the byte span `[start, endB]` are precisely
the interval `[needed_first, needed_last]` that `_wait_for_pieces`
iterates over. -/
theorem coversByte_range_iff (fileOffset pieceLength start endB p : Nat)
    (hp : 0 < pieceLength) (hse : start ≤ endB) :
    (∃ b, start ≤ b ∧ b ≤ endB ∧ coversByte fileOffset pieceLength p b) ↔
    ((fileOffset + start) / pieceLength ≤ p ∧
     p ≤ (fileOffset + endB) / pieceLength) := by
  constructor
  · rintro ⟨b, hb1, hb2, hc1, hc2⟩
    constructor
    · have : fileOffset + start < (p + 1) * pieceLength :=
        Nat.lt_of_le_of_lt (by omega) hc2
      have := (Nat.div_lt_iff_lt_mul hp).mpr this
      omega
    · have : p * pieceLength ≤ fileOffset + endB := Nat.le_trans hc1 (by omega)
      exact (Nat.le_div_iff_mul_le hp).mpr this
  · rintro ⟨hnf, hnl⟩
    have hmul1 : p * pieceLength ≤ fileOffset + endB := by
      calc p * pieceLength ≤ ((fileOffset + endB) / pieceLength) * pieceLength :=
            Nat.mul_le_mul_right _ hnl
        _ ≤ fileOffset + endB := Nat.div_mul_le_self ..
    have hmul2 : fileOffset + start < (p + 1) * pieceLength := by
      calc fileOffset + start <
            ((fileOffset + start) / pieceLength + 1) * pieceLength :=
            lt_div_succ_mul _ _ hp
        _ ≤ (p + 1) * pieceLength := Nat.mul_le_mul_right _ (by omega)
    have hstep : p * pieceLength < (p + 1) * pieceLength :=
      (Nat.mul_lt_mul_right hp).mpr (by omega)
    refine ⟨max (p * pieceLength) (fileOffset + start) - fileOffset,
      by omega, by omega, ?_, ?_⟩
    · omega
    · omega

/-- The wait loop succeeds exactly when some poll tick inside the window
sees every piece of `[needed_first, needed_last]` available. -/
theorem waitForPieces_iff (avail : Nat → Nat → Bool)
    (fileOffset pieceLength start endB : Nat) :
    waitForPieces avail fileOffset pieceLength start endB = true ↔
    ∃ t, t < WAIT_POLLS ∧ ∀ p, (fileOffset + start) / pieceLength ≤ p →
      p ≤ (fileOffset + endB) / pieceLength → avail t p = true := by
  unfold waitForPieces
  rw [List.any_eq_true]
  constructor
  · rintro ⟨t, ht, hall⟩
    rw [List.all_eq_true] at hall
    refine ⟨t, List.mem_range.mp ht, ?_⟩
    intro p h1 h2
    exact hall p (List.mem_range'_1.mpr ⟨h1, by omega⟩)
  · rintro ⟨t, ht, hall⟩
    refine ⟨t, List.mem_range.mpr ht, ?_⟩
    rw [List.all_eq_true]
    intro p hp
    have := List.mem_range'_1.mp hp
    exact hall p this.1 (by omega)

/-- Claim C1: for a GET on the stream endpoint carrying
`Range: bytes=start-endReq` with `0 ≤ start ≤ endReq` (and `start` inside
the file), let `e = min endReq (file_size - 1)`: if every piece covering
bytes `[start, e]` of the selected file becomes available at some poll
tick within the 30-second wait window, the handler responds 206 with
`Content-Range: bytes start-e/file_size`, `Content-Length: e-start+1`,
and a body of exactly `e-start+1` bytes; if at every poll tick within the
window some covering piece is unavailable, it responds 503 and streams no
file bytes. The partial file on disk is modelled as `fileData` with
`file_size` bytes (the engine pre-allocates the file span). -/
theorem c1_range_request (avail : Nat → Nat → Bool)
    (fileOffset pieceLength fileSize : Nat) (fileData : List Nat)
    (mime : String) (start endReq : Nat)
    (hp : 0 < pieceLength) (hse : start ≤ endReq) (hsf : start < fileSize)
    (hdata : fileData.length = fileSize) :
    ((∃ t, t < WAIT_POLLS ∧ ∀ p,
        (∃ b, start ≤ b ∧ b ≤ min endReq (fileSize - 1) ∧
          coversByte fileOffset pieceLength p b) → avail t p = true) →
      (serveFileRange avail fileOffset pieceLength fileSize fileData mime
          start endReq false).statusCode = 206 ∧
      (serveFileRange avail fileOffset pieceLength fileSize fileData mime
          start endReq false).contentRange =
        some ("bytes " ++ Nat.repr start ++ "-" ++
          Nat.repr (min endReq (fileSize - 1)) ++ "/" ++ Nat.repr fileSize) ∧
      (serveFileRange avail fileOffset pieceLength fileSize fileData mime
          start endReq false).contentLength =
        some (Nat.repr (min endReq (fileSize - 1) - start + 1)) ∧
      (serveFileRange avail fileOffset pieceLength fileSize fileData mime
          start endReq false).body.length =
        min endReq (fileSize - 1) - start + 1) ∧
    ((∀ t, t < WAIT_POLLS → ∃ p,
        (∃ b, start ≤ b ∧ b ≤ min endReq (fileSize - 1) ∧
          coversByte fileOffset pieceLength p b) ∧ avail t p = false) →
      (serveFileRange avail fileOffset pieceLength fileSize fileData mime
          start endReq false).statusCode = 503 ∧
      (serveFileRange avail fileOffset pieceLength fileSize fileData mime
          start endReq false).body = []) := by
  have hsee : start ≤ min endReq (fileSize - 1) := by omega
  constructor
  · intro H
    have hwait : waitForPieces avail fileOffset pieceLength start
        (min endReq (fileSize - 1)) = true := by
      rw [waitForPieces_iff]
      obtain ⟨t, ht, hall⟩ := H
      refine ⟨t, ht, fun p h1 h2 => hall p ?_⟩
      exact (coversByte_range_iff fileOffset pieceLength start
        (min endReq (fileSize - 1)) p hp hsee).mpr ⟨h1, h2⟩
    have hint : ((min endReq (fileSize - 1) : Nat) : Int) - (start : Int) + 1 =
        ((min endReq (fileSize - 1) - start + 1 : Nat) : Int) := by omega
    have htn : (((min endReq (fileSize - 1) : Nat) : Int) - (start : Int) + 1).toNat =
        min endReq (fileSize - 1) - start + 1 := by omega
    refine ⟨?_, ?_, ?_, ?_⟩
    · simp [serveFileRange, hwait]
    · simp [serveFileRange, hwait]
    · simp only [serveFileRange, hwait, if_true, if_pos]
      rw [hint]
      rfl
    · simp only [serveFileRange, hwait, if_true, if_pos, Bool.false_eq_true,
        if_false, htn]
      exact readChunks_length fileData start (min endReq (fileSize - 1) - start + 1)
        (by omega)
  · intro H
    have hwait : waitForPieces avail fileOffset pieceLength start
        (min endReq (fileSize - 1)) = false := by
      cases hw : waitForPieces avail fileOffset pieceLength start
          (min endReq (fileSize - 1)) with
      | false => rfl
      | true =>
        rw [waitForPieces_iff] at hw
        obtain ⟨t, ht, hall⟩ := hw
        obtain ⟨p, hcov, hfa⟩ := H t ht
        have hint := (coversByte_range_iff fileOffset pieceLength start
          (min endReq (fileSize - 1)) p hp hsee).mp hcov
        rw [hall p hint.1 hint.2] at hfa
        exact absurd hfa (by simp)
    constructor
    · simp [serveFileRange, hwait]
    · simp [serveFileRange, hwait]

/-- Witness for C1 at the spec's concrete example: `bytes=0-1023` on a
10000-byte file (piece length 1000, all pieces available from the first
poll) yields 206, `Content-Range: bytes 0-1023/10000`,
`Content-Length: 1024`, and exactly 1024 body bytes; the hypotheses of
`c1_range_request` hold at this input. -/
theorem c1_range_request_witness :
    (serveFileRange (fun _ _ => true) 0 1000 10000 (List.replicate 10000 0)
      "video/mp4" 0 1023 false).statusCode = 206 ∧
    (serveFileRange (fun _ _ => true) 0 1000 10000 (List.replicate 10000 0)
      "video/mp4" 0 1023 false).contentRange = some "bytes 0-1023/10000" ∧
    (serveFileRange (fun _ _ => true) 0 1000 10000 (List.replicate 10000 0)
      "video/mp4" 0 1023 false).contentLength = some "1024" ∧
    (serveFileRange (fun _ _ => true) 0 1000 10000 (List.replicate 10000 0)
      "video/mp4" 0 1023 false).body.length = 1024 := by
  have h := (c1_range_request (fun _ _ => true) 0 1000 10000
    (List.replicate 10000 0) "video/mp4" 0 1023 (by decide) (by decide)
    (by decide) (by rw [List.length_replicate])).1 ⟨0, by decide, fun p _ => rfl⟩
  refine ⟨h.1, h.2.1.trans ?_, h.2.2.1.trans ?_, h.2.2.2.trans ?_⟩
  · rfl
  · rfl
  · rfl

/-- Outcome of the metadata wait: the torrent metadata was returned at
some poll tick, or the timeout error was raised at some tick. There is no
cancellation outcome: `wait_for_metadata` (torrent.py, lines 49-67) and
`_wait_for_metadata` (stream.py, lines 68-87) have no stop-flag
parameter and no path that returns early on external cancellation. -/
inductive MetaResult where
  | success (tick : Nat)
  | timedOut (tick : Nat)
deriving DecidableEq

/-- Embeds the wait loop of `wait_for_metadata` starting at tick `t`
(one tick per `time.sleep(1)`): check `handle.has_metadata()` first, then
raise the timeout error when `remaining = timeout - t ≤ 0`, else sleep
and continue. The loop runs at most `timeout + 1 - t` iterations, so that
quantity is sound fuel. -/
def waitForMetadataAux (hasMetadata : Nat → Bool) (timeout : Nat) :
    Nat → Nat → MetaResult
  | 0, t => .timedOut t
  | fuel + 1, t =>
    if hasMetadata t then .success t
    else if timeout - t = 0 then .timedOut t
    else waitForMetadataAux hasMetadata timeout fuel (t + 1)

/-- Embeds `wait_for_metadata(session, handle, timeout)` with the
environment's metadata arrival given per tick. The `stopFlag` argument
is the external cancellation flag of the surrounding operation
(`stop_event` in `download_torrent`, the SIGINT event in `stream`); the
source's wait loop takes no such parameter and never reads it, which
this embedding makes explicit by ignoring the argument. -/
def waitForMetadata (hasMetadata : Nat → Bool) (_stopFlag : Nat → Bool)
    (timeout : Nat) : MetaResult :=
  waitForMetadataAux hasMetadata timeout (timeout + 1) 0

set_option maxRecDepth 4000 in
/-- Counterexample to claim C7: with the external stop flag set from tick
0 onward and metadata never arriving, the metadata wait with its default
120 s timeout does not return a cancellation within one loop tick — it
polls for the entire 120-tick window and then raises the timeout error
(tick 120), because neither copy of the wait loop reads any stop flag. -/
theorem c7_metadata_wait_cex :
    waitForMetadata (fun _ => false) (fun _ => true) 120 =
      MetaResult.timedOut 120 ∧ (1 : Nat) < 120 := by
  exact ⟨rfl, by decide⟩

theorem waitForMetadataAux_timeout (hasMetadata : Nat → Bool) (timeout : Nat)
    (hnone : ∀ u, u ≤ timeout → hasMetadata u = false) :
    ∀ fuel t, t ≤ timeout → timeout + 1 ≤ fuel + t →
      waitForMetadataAux hasMetadata timeout fuel t = .timedOut timeout := by
  intro fuel
  induction fuel with
  | zero =>
    intro t ht hf
    exact absurd hf (by omega)
  | succ fuel ih =>
    intro t ht hf
    rw [waitForMetadataAux, hnone t ht]
    simp only [Bool.false_eq_true, if_false]
    by_cases hz : timeout - t = 0
    · rw [if_pos hz]
      have : t = timeout := by omega
      rw [this]
    · rw [if_neg hz]
      exact ih (t + 1) (by omega) (by omega)

theorem waitForMetadataAux_success (hasMetadata : Nat → Bool)
    (timeout tstar : Nat) (hts : tstar ≤ timeout)
    (hmeta : hasMetadata tstar = true)
    (hfirst : ∀ u, u < tstar → hasMetadata u = false) :
    ∀ fuel t, t ≤ tstar → timeout + 1 ≤ fuel + t →
      waitForMetadataAux hasMetadata timeout fuel t = .success tstar := by
  intro fuel
  induction fuel with
  | zero =>
    intro t ht hf
    exact absurd hf (by omega)
  | succ fuel ih =>
    intro t ht hf
    by_cases he : t = tstar
    · rw [waitForMetadataAux, he, hmeta]
      simp
    · have hlt : t < tstar := by omega
      rw [waitForMetadataAux, hfirst t hlt]
      simp only [Bool.false_eq_true, if_false]
      rw [if_neg (by omega)]
      exact ih (t + 1) (by omega) (by omega)

/-- Claim C7 as amended: the metadata wait loop checks only metadata
arrival and the timeout once per ~1 Hz tick; it never observes any
external cancellation/stop flag, so a set flag cannot make it return
early: with metadata first available at tick `tstar ≤ timeout` it
returns success at `tstar` whatever the flag, and with metadata never
arriving within the window it blocks for the full window and raises the
timeout error at tick `timeout`, whatever the flag. Cancellation is
observed only by the callers' later polling loops. -/
theorem c7_metadata_wait_uninterruptible (hasMetadata stopFlag : Nat → Bool)
    (timeout : Nat) :
    ((∀ u, u ≤ timeout → hasMetadata u = false) →
      waitForMetadata hasMetadata stopFlag timeout = .timedOut timeout) ∧
    (∀ tstar, tstar ≤ timeout → hasMetadata tstar = true →
      (∀ u, u < tstar → hasMetadata u = false) →
      waitForMetadata hasMetadata stopFlag timeout = .success tstar) := by
  constructor
  · intro hnone
    exact waitForMetadataAux_timeout hasMetadata timeout hnone (timeout + 1) 0
      (Nat.zero_le _) (by omega)
  · intro tstar hts hmeta hfirst
    exact waitForMetadataAux_success hasMetadata timeout tstar hts hmeta hfirst
      (timeout + 1) 0 (Nat.zero_le _) (by omega)

/-- Witness for C7's amended claim: metadata first arrives at tick 5 of a
120 s wait whose surrounding operation has its stop flag set from tick 0;
the wait still returns success at tick 5 (and, per the counterexample,
runs the full window when metadata never arrives). -/
theorem c7_metadata_wait_uninterruptible_witness :
    waitForMetadata (fun t => decide (5 ≤ t)) (fun _ => true) 120 =
      MetaResult.success 5 :=
  (c7_metadata_wait_uninterruptible (fun t => decide (5 ≤ t)) (fun _ => true)
    120).2 5 (by decide) (by decide)
    (fun u hu => by simpa using Nat.not_le.mpr hu)

/-- The engine operations `download_torrent` can invoke on the session or
handle, in the vocabulary of torrent.py/download.py (priority-setting
calls included so their absence is expressible). -/
inductive EngineCall where
  | createSession (listenPort : Nat)
  | addMagnet (sequential : Bool)
  | waitMetadata (timeout : Nat)
  | postTorrentUpdates
  | readStatus
  | writeStateProgress
  | sleepOneSecond
  | saveResumeData
  | removeTorrent
  | prioritizeFiles (priorities : List Nat)
  | prioritizePieces (priorities : List Nat)
deriving DecidableEq

/-- True exactly on the two priority-setting engine calls. -/
def isPriorityCall : EngineCall → Bool
  | .prioritizeFiles _ => true
  | .prioritizePieces _ => true
  | _ => false

/-- Embeds the polling loop of `download_torrent` (download.py, lines
46-67) as the sequence of engine calls it performs from tick `t`:
while the stop event is unset, flush updates, read status, write the
state file when one was given and the progress interval elapsed
(`writeDue`), then on seeding write the final completed state (when a
state file was given) and exit, else sleep one second and continue. -/
def downloadLoopCalls (isSeeding stopFlag writeDue : Nat → Bool)
    (hasStateFile : Bool) : Nat → Nat → List EngineCall
  | 0, _ => []
  | fuel + 1, t =>
    if stopFlag t then []
    else
      [.postTorrentUpdates, .readStatus] ++
      (if hasStateFile ∧ writeDue t then [.writeStateProgress] else []) ++
      (if isSeeding t then
        (if hasStateFile then [.writeStateProgress] else [])
      else
        .sleepOneSecond ::
          downloadLoopCalls isSeeding stopFlag writeDue hasStateFile fuel (t + 1))

/-- Embeds `download_torrent` (download.py, lines 16-85) as its engine
call trace: create the session on port 6881, add the magnet with the
sequential flag off, wait for metadata with the 120 s timeout, run the
polling loop, then in the `finally` block save resume data and remove the
torrent. No call in the body sets any file or piece priority. -/
def downloadTorrentCalls (isSeeding stopFlag writeDue : Nat → Bool)
    (hasStateFile : Bool) (fuel : Nat) : List EngineCall :=
  [.createSession 6881, .addMagnet false, .waitMetadata 120] ++
  downloadLoopCalls isSeeding stopFlag writeDue hasStateFile fuel 0 ++
  [.saveResumeData, .removeTorrent]

/-- Counterexample to claim C6: a concrete download-mode run (seeding
reached at tick 2, no interruption, state file present) performs no
priority-setting engine call at all — in particular it never sets
priority 1 on the target file's pieces nor priority 0 on non-target
files before or during polling. -/
theorem c6_download_no_priority_cex :
    (downloadTorrentCalls (fun t => decide (t = 2)) (fun _ => false)
      (fun _ => false) true 10).filter isPriorityCall = [] := by
  rfl

/-- Claim C6 as amended: download mode performs no explicit
prioritization whatsoever: for every seeding/stop/interval behaviour and
any loop length, the engine-call trace of `download_torrent` contains no
`prioritize_files` and no `prioritize_pieces` call; all files download at
the engine's default priorities (with the sequential flag off). -/
theorem downloadLoopCalls_no_priorities (isSeeding stopFlag writeDue : Nat → Bool)
    (hasStateFile : Bool) :
    ∀ fuel t c, c ∈ downloadLoopCalls isSeeding stopFlag writeDue hasStateFile
      fuel t → isPriorityCall c = false := by
  intro fuel
  induction fuel with
  | zero =>
    intro t c hc
    simp [downloadLoopCalls] at hc
  | succ fuel ih =>
    intro t c hc
    rw [downloadLoopCalls] at hc
    by_cases hs : stopFlag t = true
    · rw [if_pos hs] at hc
      simp at hc
    · rw [if_neg hs] at hc
      split_ifs at hc <;>
        simp only [List.mem_append, List.mem_cons, List.mem_singleton,
          List.not_mem_nil, or_false, false_or] at hc <;>
        repeat
          first
            | exact ih (t + 1) c hc
            | (subst hc; rfl)
            | rcases hc with hc | hc

theorem c6_download_sets_no_priorities (isSeeding stopFlag writeDue : Nat → Bool)
    (hasStateFile : Bool) (fuel : Nat) :
    (downloadTorrentCalls isSeeding stopFlag writeDue hasStateFile fuel).all
      (fun c => !isPriorityCall c) = true := by
  rw [List.all_eq_true]
  intro c hc
  unfold downloadTorrentCalls at hc
  simp only [List.mem_append, List.mem_cons, List.mem_singleton,
    List.not_mem_nil, or_false, false_or] at hc
  show (!isPriorityCall c) = true
  have hfin : isPriorityCall c = false := by
    repeat
      first
        | exact downloadLoopCalls_no_priorities isSeeding stopFlag writeDue
            hasStateFile fuel 0 c hc
        | (subst hc; rfl)
        | rcases hc with hc | hc
  rw [hfin]
  rfl

/-- Resources a stream teardown touches: whether the HTTP server's serve
loop is running, whether the torrent is registered in the session, and
whether the save directory exists on disk. -/
structure CleanupState where
  serverRunning : Bool
  torrentInSession : Bool
  dirExists : Bool
deriving DecidableEq, Fintype

/-- The release effects `_cleanup` can perform. -/
inductive CleanupAction where
  | serverShutdown
  | removeTorrentFromSession
  | removeSaveDir
deriving DecidableEq

/-- Modelled from the spec: `server.shutdown()` stops the HTTP server's
serve loop; the spec (§4.1 "closing twice is a no-op", §3 "released
exactly once (idempotent) on teardown") makes a second shutdown release
nothing. The primitive itself is Python stdlib code, not in src/. -/
def shutdownServer (s : CleanupState) : CleanupState × List CleanupAction :=
  if s.serverRunning then
    (⟨false, s.torrentInSession, s.dirExists⟩, [.serverShutdown])
  else (s, [])

/-- Modelled from the spec: `session.remove_torrent(handle)` — §4.7 step
3: "remove the torrent from the session (idempotent)". The primitive is
libtorrent code, not in src/. -/
def removeTorrentOp (s : CleanupState) : CleanupState × List CleanupAction :=
  if s.torrentInSession then
    (⟨s.serverRunning, false, s.dirExists⟩, [.removeTorrentFromSession])
  else (s, [])

/-- Modelled from the spec: `shutil.rmtree(save_path)` deletes the tree;
`_cleanup` itself guards the call with `save_path.exists()` and swallows
`OSError`. -/
def rmtreeOp (s : CleanupState) : CleanupState × List CleanupAction :=
  (⟨s.serverRunning, s.torrentInSession, false⟩, [.removeSaveDir])

/-- Embeds `_cleanup` (stream.py, lines 343-362): shut the server down
when one was created (`if server:`), remove the torrent when session and
handle exist (`if session and handle:`), and delete the save directory
when `keep` is unset, a save path was given, and the directory still
exists (`if not keep and save_path and save_path.exists():`). The model
is total: the source has no error path here (rmtree errors are caught,
the other two primitives are idempotent per the spec). -/
def cleanup (hasServer hasSession hasSavePath keep : Bool)
    (s : CleanupState) : CleanupState × List CleanupAction :=
  let r1 := if hasServer then shutdownServer s else (s, [])
  let r2 := if hasSession then removeTorrentOp r1.1 else (r1.1, [])
  let r3 := if !keep && hasSavePath && r2.1.dirExists then rmtreeOp r2.1
    else (r2.1, [])
  (r3.1, r1.2 ++ r2.2 ++ r3.2)

/-- Claim C9: for every server/session/handle/save-path configuration and
every resource state, running the teardown twice in sequence produces no
duplicate resource release: the second call changes nothing and performs
no release action (and the model's totality reflects that no error is
raised); moreover a single call never releases the same resource twice. -/
theorem c9_cleanup_idempotent :
    ∀ (hasServer hasSession hasSavePath keep : Bool) (s : CleanupState),
      cleanup hasServer hasSession hasSavePath keep
          (cleanup hasServer hasSession hasSavePath keep s).1 =
        ((cleanup hasServer hasSession hasSavePath keep s).1, []) ∧
      (cleanup hasServer hasSession hasSavePath keep s).2.Nodup := by
  decide

/-- How a writer puts bytes into the durable state file. -/
inductive WriteMethod where
  | inPlaceRewrite
  | atomicReplace
deriving DecidableEq

/-- Embeds `_write_state` (cli.py, lines 236-239): the state record is
written with `path.write_text(json.dumps(state, indent=2))` — a direct
open-truncate-write on the target path. No temporary file and no rename
appear anywhere in the repository. -/
def writeStateMethod : WriteMethod := .inPlaceRewrite

/-- Embeds the write inside `_update_state_progress` (download.py, line
109): likewise a direct `state_file.write_text(...)`. -/
def updateStateProgressWriteMethod : WriteMethod := .inPlaceRewrite

/-- An opening curly brace. -/
def openBrace : Char := '\x7b'

/-- A closing curly brace. -/
def closeBrace : Char := '\x7d'

/-- Content a reader observes when an in-place `write_text` of `newText`
is interrupted after `k` bytes: opening with truncation destroys the old
content, then bytes are written sequentially, so the file holds the
first `k` bytes of the new text. -/
def inPlaceObservable (newText : List Char) (k : Nat) : List Char :=
  newText.take k

/-- Necessary envelope condition for a text to parse as a JSON object
(the state files hold objects): nonempty, first character an opening
brace, last character a closing brace. Anything failing it is rejected
by `json.loads`. -/
def jsonObjectEnvelope (s : List Char) : Bool :=
  !s.isEmpty && decide (s.head? = some openBrace) &&
    decide (s.getLast? = some closeBrace)

/-- Modelled from the spec/stdlib: one item of
`json.dumps(record, indent=2)` for a flat string-valued record — two
spaces of indent, the quoted key, colon, space, the quoted value. -/
def jsonItem (kv : String × String) : List Char :=
  [' ', ' ', '\x22'] ++ kv.1.toList ++ ['\x22', ':', ' ', '\x22'] ++
    kv.2.toList ++ ['\x22']

/-- Items joined by comma-newline, as `json.dumps(..., indent=2)` lays
them out. -/
def joinItems : List (List Char) → List Char
  | [] => []
  | [x] => x
  | x :: xs => x ++ [',', '\n'] ++ joinItems xs

/-- Modelled from the spec/stdlib: `json.dumps(record, indent=2)` of a
flat string-valued record: opening brace, newline, the indented items,
newline, closing brace (an empty record prints as the two braces). The
real state records also hold numbers (pid, progress); number literals
contain no brace, so the brace structure this model captures is the
same. -/
def jsonDumpsFlat (kvs : List (String × String)) : List Char :=
  match kvs with
  | [] => [openBrace, closeBrace]
  | _ => [openBrace, '\n'] ++ joinItems (kvs.map jsonItem) ++ ['\n', closeBrace]

theorem jsonItem_no_closeBrace (kv : String × String)
    (h1 : closeBrace ∉ kv.1.toList) (h2 : closeBrace ∉ kv.2.toList) :
    closeBrace ∉ jsonItem kv := by
  intro hmem
  simp only [jsonItem, List.mem_append, List.mem_cons,
    List.not_mem_nil, or_false] at hmem
  repeat
    first
      | exact absurd hmem (by decide)
      | exact h1 hmem
      | exact h2 hmem
      | rcases hmem with hmem | hmem

theorem joinItems_no_closeBrace (xs : List (List Char))
    (hx : ∀ x ∈ xs, closeBrace ∉ x) : closeBrace ∉ joinItems xs := by
  induction xs with
  | nil => simp [joinItems]
  | cons x xs ih =>
    cases xs with
    | nil =>
      show closeBrace ∉ joinItems [x]
      exact hx x (by simp)
    | cons y ys =>
      show closeBrace ∉ x ++ [',', '\n'] ++ joinItems (y :: ys)
      intro hmem
      simp only [List.mem_append, List.mem_cons, List.not_mem_nil,
        or_false] at hmem
      rcases hmem with (h | h | h) | h
      · exact hx x (by simp) h
      · exact absurd h (by decide)
      · exact absurd h (by decide)
      · exact ih (fun z hz => hx z (by simp [hz])) h

theorem jsonDumpsFlat_split (kvs : List (String × String))
    (hnb : ∀ kv ∈ kvs, closeBrace ∉ kv.1.toList ∧ closeBrace ∉ kv.2.toList) :
    ∃ body, jsonDumpsFlat kvs = body ++ [closeBrace] ∧ closeBrace ∉ body := by
  cases kvs with
  | nil => exact ⟨[openBrace], rfl, by decide⟩
  | cons kv rest =>
    have hjoin : closeBrace ∉ joinItems ((kv :: rest).map jsonItem) := by
      refine joinItems_no_closeBrace ((kv :: rest).map jsonItem) ?_
      intro z hz
      simp only [List.mem_map] at hz
      obtain ⟨kv2, hkv2, hz2⟩ := hz
      subst hz2
      exact jsonItem_no_closeBrace kv2 (hnb kv2 hkv2).1 (hnb kv2 hkv2).2
    refine ⟨[openBrace, '\n'] ++ joinItems ((kv :: rest).map jsonItem) ++
      ['\n'], ?_, ?_⟩
    · show jsonDumpsFlat (kv :: rest) = _
      simp only [jsonDumpsFlat, List.append_assoc, List.cons_append,
        List.nil_append]
    · intro hmem
      simp only [List.mem_append, List.mem_cons, List.not_mem_nil,
        or_false] at hmem
      repeat
        first
          | exact absurd hmem (by decide)
          | exact hjoin hmem
          | rcases hmem with hmem | hmem

/-- Counterexample to claim C8: both state-file writers use a plain
in-place `write_text`, not an atomic replace; interrupting the write of
a concrete state record after its first byte leaves the file holding
just an opening brace, which no JSON parser accepts — a reader can
observe a partial write. -/
theorem c8_partial_write_cex :
    writeStateMethod = WriteMethod.inPlaceRewrite ∧
    updateStateProgressWriteMethod = WriteMethod.inPlaceRewrite ∧
    inPlaceObservable
      (jsonDumpsFlat [("id", "abc123"), ("status", "downloading")]) 1 =
      [openBrace] ∧
    jsonObjectEnvelope (inPlaceObservable
      (jsonDumpsFlat [("id", "abc123"), ("status", "downloading")]) 1) =
      false := by
  exact ⟨rfl, rfl, rfl, rfl⟩

/-- Claim C8 as amended: the durable state file is written by in-place
truncate-and-write (`Path.write_text`), not by an atomic replace; a
write interrupted after `k` bytes exposes exactly the first `k` bytes of
the new text, and for every state record (whose keys and values contain
no closing brace) and every proper interruption point this observed
content is not a valid JSON object — readers cope by catching JSON
decode errors instead (`_read_all_states` skips such files,
`_update_state_progress` ignores them). -/
theorem c8_interrupted_write_unparseable (kvs : List (String × String))
    (k : Nat)
    (hnb : ∀ kv ∈ kvs, closeBrace ∉ kv.1.toList ∧ closeBrace ∉ kv.2.toList)
    (hk : k < (jsonDumpsFlat kvs).length) :
    writeStateMethod = WriteMethod.inPlaceRewrite ∧
    jsonObjectEnvelope (inPlaceObservable (jsonDumpsFlat kvs) k) = false := by
  refine ⟨rfl, ?_⟩
  obtain ⟨body, heq, hnotin⟩ := jsonDumpsFlat_split kvs hnb
  rw [heq] at hk ⊢
  have hkb : k ≤ body.length := by
    rw [List.length_append, List.length_singleton] at hk
    omega
  unfold inPlaceObservable
  rw [List.take_append_of_le_length hkb]
  cases k with
  | zero => rfl
  | succ k =>
    have hne : body.take (k + 1) ≠ [] := by
      have : (body.take (k + 1)).length = k + 1 := by
        rw [List.length_take]
        omega
      intro hcon
      rw [hcon] at this
      exact absurd this (by simp)
    have hlast : (body.take (k + 1)).getLast? =
        some ((body.take (k + 1)).getLast hne) :=
      List.getLast?_eq_getLast _ hne
    have hmem : (body.take (k + 1)).getLast hne ∈ body :=
      List.take_subset _ _ (List.getLast_mem hne)
    have hnotcb : (body.take (k + 1)).getLast hne ≠ closeBrace := by
      intro hcon
      rw [hcon] at hmem
      exact hnotin hmem
    unfold jsonObjectEnvelope
    rw [hlast]
    have : decide (some ((body.take (k + 1)).getLast hne) = some closeBrace) =
        false := by
      simp [hnotcb]
    rw [this, Bool.and_false]

/-- Witness for C8's amended claim at a concrete record and interruption
point: cutting the write of the two-field record after one byte leaves
non-JSON content. -/
theorem c8_interrupted_write_unparseable_witness :
    writeStateMethod = WriteMethod.inPlaceRewrite ∧
    jsonObjectEnvelope (inPlaceObservable
      (jsonDumpsFlat [("id", "abc123"), ("status", "downloading")]) 1) =
      false :=
  c8_interrupted_write_unparseable
    [("id", "abc123"), ("status", "downloading")] 1 (by decide) (by decide)

/-- JSON values occurring in the background-download state records:
strings, numbers (modelled as exact rationals), and null. -/
inductive JVal where
  | jstr (s : String)
  | jnum (q : ℚ)
  | jnull
deriving DecidableEq

/-- Embeds `round(progress, 4)`: the progress scaled by 10⁴, rounded to
the nearest integer, and scaled back (Python resolves exact halves by
IEEE-double round-half-even; the claim does not depend on the tie
direction, so nearest-integer rounding is used on the exact rational). -/
def round4 (q : ℚ) : ℚ := (round (q * 10000) : ℤ) / 10000

/-- What the state file holds when `_update_state_progress` runs: the
file may be absent (`read_text` raises `OSError`), hold text that is not
valid JSON (`json.loads` raises `JSONDecodeError`), or hold a parsed
record. `json.loads`/`json.dumps` of a record are modelled as inverse
(spec §8: a serialized state reloads with identical fields). -/
inductive StateFile where
  | missing
  | invalidContent
  | record (kvs : List (String × JVal))
deriving DecidableEq

/-- Python dict assignment `d[k] = v` on an insertion-ordered record:
replace the value in place when the key exists, else append. -/
def dictSet : List (String × JVal) → String → JVal → List (String × JVal)
  | [], k, v => [(k, v)]
  | (k0, v0) :: rest, k, v =>
    if k0 = k then (k, v) :: rest else (k0, v0) :: dictSet rest k v

/-- Python dict lookup `d.get(k)`. -/
def dictGet : List (String × JVal) → String → Option JVal
  | [], _ => none
  | (k0, v0) :: rest, k => if k0 = k then some v0 else dictGet rest k

/-- Lookup through the file: `none` when the file is missing or invalid. -/
def stateGet : StateFile → String → Option JVal
  | .record kvs, k => dictGet kvs k
  | _, _ => none

/-- Embeds `_update_state_progress` (download.py, lines 102-111): read
and parse the state file — on `OSError` (missing file) or
`JSONDecodeError` (invalid text) return with the file unchanged (the
`except ... pass` branch); otherwise set `state["progress"]` to
`round(progress, 4)`, set `state["status"]` when the status argument is
truthy (Python `if status:` — non-None and nonempty), and write the
record back. -/
def updateStateProgress (file : StateFile) (progress : ℚ)
    (status : Option String) : StateFile :=
  match file with
  | .missing => .missing
  | .invalidContent => .invalidContent
  | .record kvs =>
    let kvs1 := dictSet kvs "progress" (.jnum (round4 progress))
    match status with
    | none => .record kvs1
    | some s =>
      if s = "" then .record kvs1
      else .record (dictSet kvs1 "status" (.jstr s))

theorem dictGet_dictSet_self (kvs : List (String × JVal)) (k : String)
    (v : JVal) : dictGet (dictSet kvs k v) k = some v := by
  induction kvs with
  | nil => simp [dictSet, dictGet]
  | cons kv rest ih =>
    obtain ⟨k0, v0⟩ := kv
    rw [dictSet]
    by_cases h : k0 = k
    · rw [if_pos h, dictGet, if_pos rfl]
    · rw [if_neg h, dictGet, if_neg h]
      exact ih

theorem dictGet_dictSet_other (kvs : List (String × JVal)) (k k2 : String)
    (v : JVal) (h : k2 ≠ k) :
    dictGet (dictSet kvs k v) k2 = dictGet kvs k2 := by
  induction kvs with
  | nil =>
    show dictGet [(k, v)] k2 = none
    rw [dictGet, if_neg (fun he => h (Eq.symm he))]
    rfl
  | cons kv rest ih =>
    obtain ⟨k0, v0⟩ := kv
    rw [dictSet]
    by_cases h0 : k0 = k
    · rw [if_pos h0, dictGet, if_neg (fun he => h he.symm), dictGet,
        if_neg (by rw [h0]; exact fun he => h he.symm)]
    · rw [if_neg h0, dictGet, dictGet]
      by_cases h2 : k0 = k2
      · rw [if_pos h2, if_pos h2]
      · rw [if_neg h2, if_neg h2]
        exact ih

/-- Claim C10: when the state file holds a valid record, the call sets
exactly `progress` (to the 4-decimal rounding) and — only when a truthy
status argument is supplied — `status`; every other key keeps its prior
value; a supplied falsy status (None or the empty string) leaves the
`status` key untouched. When the file is missing or unparseable the call
returns normally (the embedding is total, matching the source's
`except (JSONDecodeError, OSError): pass`) and leaves the file
unchanged. -/
theorem c10_update_state_frame (kvs : List (String × JVal)) (progress : ℚ)
    (status : Option String) :
    stateGet (updateStateProgress (.record kvs) progress status) "progress" =
      some (.jnum (round4 progress)) ∧
    (∀ s, status = some s → s ≠ "" →
      stateGet (updateStateProgress (.record kvs) progress status) "status" =
        some (.jstr s)) ∧
    ((status = none ∨ status = some "") →
      stateGet (updateStateProgress (.record kvs) progress status) "status" =
        dictGet kvs "status") ∧
    (∀ k, k ≠ "progress" → k ≠ "status" →
      stateGet (updateStateProgress (.record kvs) progress status) k =
        dictGet kvs k) ∧
    updateStateProgress .missing progress status = .missing ∧
    updateStateProgress .invalidContent progress status = .invalidContent := by
  refine ⟨?_, ?_, ?_, ?_, rfl, rfl⟩
  · cases status with
    | none =>
      show dictGet (dictSet kvs "progress" (.jnum (round4 progress)))
        "progress" = _
      exact dictGet_dictSet_self ..
    | some s =>
      by_cases hs : s = ""
      · rw [updateStateProgress]
        rw [if_pos hs]
        exact dictGet_dictSet_self ..
      · rw [updateStateProgress]
        rw [if_neg hs]
        show dictGet (dictSet _ "status" _) "progress" = _
        rw [dictGet_dictSet_other _ _ _ _ (by decide)]
        exact dictGet_dictSet_self ..
  · intro s hs hne
    subst hs
    rw [updateStateProgress]
    rw [if_neg hne]
    exact dictGet_dictSet_self ..
  · intro hfalsy
    rcases hfalsy with hn | he
    · subst hn
      show dictGet (dictSet kvs "progress" (.jnum (round4 progress)))
        "status" = _
      exact dictGet_dictSet_other _ _ _ _ (by decide)
    · subst he
      rw [updateStateProgress]
      rw [if_pos rfl]
      exact dictGet_dictSet_other _ _ _ _ (by decide)
  · intro k hk1 hk2
    cases status with
    | none =>
      show dictGet (dictSet kvs "progress" (.jnum (round4 progress))) k = _
      exact dictGet_dictSet_other _ _ _ _ hk1
    | some s =>
      by_cases hs : s = ""
      · rw [updateStateProgress]
        rw [if_pos hs]
        exact dictGet_dictSet_other _ _ _ _ hk1
      · rw [updateStateProgress]
        rw [if_neg hs]
        show dictGet (dictSet _ "status" _) k = _
        rw [dictGet_dictSet_other _ _ _ _ hk2]
        exact dictGet_dictSet_other _ _ _ _ hk1

/-- Witness for C10 at a concrete record: updating
`(id: "abc", progress: 0, status: "downloading")` with progress 1 and
status "completed" rounds and stores the progress, replaces the status,
and preserves `id`; a missing file stays missing. -/
theorem c10_update_state_frame_witness :
    stateGet (updateStateProgress
      (.record [("id", .jstr "abc"), ("progress", .jnum 0),
        ("status", .jstr "downloading")]) 1 (some "completed")) "progress" =
      some (.jnum (round4 1)) ∧
    stateGet (updateStateProgress
      (.record [("id", .jstr "abc"), ("progress", .jnum 0),
        ("status", .jstr "downloading")]) 1 (some "completed")) "status" =
      some (.jstr "completed") ∧
    stateGet (updateStateProgress
      (.record [("id", .jstr "abc"), ("progress", .jnum 0),
        ("status", .jstr "downloading")]) 1 (some "completed")) "id" =
      some (.jstr "abc") ∧
    updateStateProgress .missing 1 (some "completed") = .missing := by
  have h := c10_update_state_frame
    [("id", .jstr "abc"), ("progress", .jnum 0), ("status", .jstr "downloading")]
    1 (some "completed")
  exact ⟨h.1, h.2.1 "completed" rfl (by decide), h.2.2.2.1 "id" (by decide)
    (by decide), h.2.2.2.2.1⟩

end AutoTorrent
